import Mathlib

/-!
Verification development for the wbbot product cache synchronization
subsystem.  The backend service layer (`ProductCacheService`, the sync
engine and the cache models) is described by the repository's technical
specification; its operations are embedded here as executable Lean
definitions.  The frontend products page (`products.tsx`) is embedded
directly from its source.
-/

namespace WBBot

/-- One cached product row of the `wb_product_cache` table:
identity `(credentialId, externalProductId)`, an opaque payload,
the timestamp of the last successful write, and the soft-delete flag. -/
structure ProductRecord where
  credentialId : String
  externalProductId : String
  payload : String
  lastUpdatedAt : Nat
  isActive : Bool
deriving DecidableEq, Repr

/-- One raw product as fetched from the upstream catalog client:
the vendor identifier (a string) and an opaque payload. -/
structure RawProduct where
  externalProductId : String
  payload : String
deriving DecidableEq, Repr

/-- Does record `r` carry the key `(cred, pid)`? -/
def keyMatch (cred pid : String) (r : ProductRecord) : Bool :=
  r.credentialId == cred && r.externalProductId == pid

/-- The record written by an upsert: full payload replace, fresh
`lastUpdatedAt`, active. -/
def mkRecord (cred pid payload : String) (now : Nat) : ProductRecord :=
  { credentialId := cred, externalProductId := pid, payload := payload,
    lastUpdatedAt := now, isActive := true }

/-- Modelled from the spec: the Cache Store's `upsert(record)` —
insert or full-replace by `(credentialId, externalProductId)`,
updating `lastUpdatedAt`.  (The backend service file
`product_cache_service.py` is not in the source tree; the operation is
reconstructed from the specification's Cache Store contract.) -/
def upsert (cred pid payload : String) (now : Nat)
    (cache : List ProductRecord) : List ProductRecord :=
  if cache.any (keyMatch cred pid) then
    cache.map (fun r =>
      if keyMatch cred pid r then mkRecord cred pid payload now else r)
  else
    cache ++ [mkRecord cred pid payload now]

/-- No two rows of the cache share the composite key
`(credentialId, externalProductId)` — the table's unique constraint. -/
def uniqueKeys (cache : List ProductRecord) : Prop :=
  cache.Pairwise (fun a b =>
    a.credentialId ≠ b.credentialId ∨ a.externalProductId ≠ b.externalProductId)

/-- Modelled from the spec: `countActive(credentialId)` of the Cache
Store — the number of active records for one credential. -/
def countActive (cred : String) (cache : List ProductRecord) : Nat :=
  (cache.filter (fun r => r.credentialId == cred && r.isActive)).length

/-- The query ordering: `lastUpdatedAt` descending. -/
def byUpdatedDesc (a b : ProductRecord) : Prop :=
  b.lastUpdatedAt ≤ a.lastUpdatedAt

instance : DecidableRel byUpdatedDesc :=
  fun a b => Nat.decLe b.lastUpdatedAt a.lastUpdatedAt

instance : IsTotal ProductRecord byUpdatedDesc :=
  ⟨fun a b => (Nat.le_total b.lastUpdatedAt a.lastUpdatedAt)⟩

instance : IsTrans ProductRecord byUpdatedDesc :=
  ⟨fun _ _ _ h1 h2 => Nat.le_trans h2 h1⟩

/-- Modelled from the spec: the Cache Store's
`query(credentialId, limit, offset, activeOnly)` — filter to the
credential (active rows only when `activeOnly`), order by
`lastUpdatedAt` descending, then paginate.  (The backend service file
`product_cache_service.py` is not in the source tree; the operation is
reconstructed from the specification and the documented
`ORDER BY ... DESC` sorting.) -/
def query (cred : String) (limit offset : Nat) (activeOnly : Bool)
    (cache : List ProductRecord) : List ProductRecord :=
  ((((cache.filter (fun r =>
    r.credentialId == cred && (!activeOnly || r.isActive))).insertionSort
      byUpdatedDesc).drop offset).take limit)

/-- Modelled from the spec: `softDelete(credentialId, excludingIds)` —
mark inactive every active record of the credential whose identifier is
not in `excludingIds`. -/
def softDelete (cred : String) (excluding : List String)
    (cache : List ProductRecord) : List ProductRecord :=
  cache.map (fun r =>
    if r.credentialId = cred ∧ r.isActive = true
        ∧ r.externalProductId ∉ excluding
    then { r with isActive := false }
    else r)

/-! ## Sync Engine (modelled from the spec) -/

/-- Classified failure of the upstream catalog client. -/
inductive FetchError where
  | auth
  | malformedRequest
  | timeout
  | network
  | server5xx
deriving DecidableEq, Repr

/-- Which failures are retried (timeouts, transient network errors,
5xx-class responses); authentication rejection and malformed requests
are not. -/
def FetchError.retryable : FetchError → Bool
  | .auth => false
  | .malformedRequest => false
  | .timeout => true
  | .network => true
  | .server5xx => true

/-- Outcome of one page fetch against the upstream catalog client. -/
inductive FetchResult where
  | page (records : List RawProduct) (hasMore : Bool)
  | err (e : FetchError)
deriving DecidableEq, Repr

/-- The exponential backoff schedule: one delay (in seconds) per
allowed retry — 2s before the first retry, 4s before the second, so 2
retries (3 attempts total). -/
def backoffSchedule : List Nat := [2, 4]

/-- Modelled from the spec: the per-page bounded retry state machine.
The client is modelled as a map from attempt index to result; `delays`
is the remaining backoff schedule, so the attempt budget is one more
than its length.  A retryable failure with budget left sleeps the next
scheduled delay and retries; a non-retryable failure aborts the page
on the current attempt.  Returns the final result, the number of
attempts made, and the list of backoff delays slept (in seconds).
(The backend service file `product_cache_service.py` is not in the
source tree; the retry logic is reconstructed from the
specification.) -/
def fetchAttempts (client : Nat → FetchResult) :
    Nat → List Nat → FetchResult × Nat × List Nat
  | i, [] =>
    match client i with
    | .page rs hm => (.page rs hm, 1, [])
    | .err e => (.err e, 1, [])
  | i, d :: rest =>
    match client i with
    | .page rs hm => (.page rs hm, 1, [])
    | .err e =>
      if e.retryable then
        ((fetchAttempts client (i + 1) rest).1,
          (fetchAttempts client (i + 1) rest).2.1 + 1,
          d :: (fetchAttempts client (i + 1) rest).2.2)
      else
        (.err e, 1, [])

/-- One page fetch with the configured retry policy: up to 2 retries
with the 2s-then-4s backoff schedule. -/
def fetchPageWithRetry (client : Nat → FetchResult) :
    FetchResult × Nat × List Nat :=
  fetchAttempts client 0 backoffSchedule

/-- Warnings recorded on a sync run. -/
inductive Warning where
  | paginationAnomaly
deriving DecidableEq, Repr

/-- Why a sync run aborted before completing all pages. -/
inductive AbortCause where
  | fetchFailed (e : FetchError)
  | maxPagesExceeded
deriving DecidableEq, Repr

/-- Result of driving the pagination loop. -/
inductive LoopResult where
  | completed (records : List RawProduct) (pages : Nat) (warnings : List Warning)
  | aborted (records : List RawProduct) (pages : Nat) (warnings : List Warning)
      (cause : AbortCause)
deriving DecidableEq, Repr

/-- Records accumulated by the loop, whichever way it ended. -/
def LoopResult.records : LoopResult → List RawProduct
  | .completed rs _ _ => rs
  | .aborted rs _ _ _ => rs

/-- Pages attempted by the loop, whichever way it ended. -/
def LoopResult.pages : LoopResult → Nat
  | .completed _ p _ => p
  | .aborted _ p _ _ => p

/-- Warnings recorded by the loop, whichever way it ended. -/
def LoopResult.warnings : LoopResult → List Warning
  | .completed _ _ ws => ws
  | .aborted _ _ ws _ => ws

/-- Modelled from the spec: the Sync Engine's pagination loop.  The
client maps a page index to that page's (post-retry) outcome.  The
loop is bounded by `fuel` (the configured maximum page count); a page
whose content is identical to the previous page is the documented
pagination-anomaly condition and is treated as the terminal page,
recording a `PaginationAnomaly` warning; an empty page or
`hasMore = false` ends the catalog normally; a fetch failure aborts
the run; exhausting the page bound aborts the run as
`maxPagesExceeded`.  (The backend sync code is not in the source tree;
the loop is reconstructed from the specification's pagination
workaround and bounded-duration requirements.) -/
def syncPages (client : Nat → FetchResult) :
    Nat → Nat → Option (List RawProduct) → List RawProduct →
    List Warning → LoopResult
  | 0, i, _, acc, ws => .aborted acc i ws .maxPagesExceeded
  | Nat.succ fuel, i, prev, acc, ws =>
    match client i with
    | .err e => .aborted acc (i + 1) ws (.fetchFailed e)
    | .page rs hasMore =>
      if prev = some rs then
        .completed acc (i + 1) (ws ++ [.paginationAnomaly])
      else if rs.isEmpty || !hasMore then
        .completed (acc ++ rs) (i + 1) ws
      else
        syncPages client fuel (i + 1) (some rs) (acc ++ rs) ws

/-- A whole pagination run: start at page 0 with no previous page, no
accumulated records and no warnings, bounded by the configured maximum
page count. -/
def runSyncLoop (client : Nat → FetchResult) (maxPages : Nat) : LoopResult :=
  syncPages client maxPages 0 none [] []

/-- Terminal outcome of a sync run. -/
inductive RunOutcome where
  | success
  | degraded
  | failure
deriving DecidableEq, Repr

/-- Summary of one synchronization run: the resulting cache, the
terminal outcome (`degraded` is the spec's partial-success), the
identifiers accepted from the fetched result set, the number of
records upserted, pages attempted and warnings. -/
structure SyncResult where
  cache : List ProductRecord
  outcome : RunOutcome
  fetchedIds : List String
  upserted : Nat
  pages : Nat
  warnings : List Warning
deriving Repr

/-- The identifiers of a fetched record list that pass validation
(identifier present and non-empty). -/
def validIds (recs : List RawProduct) : List String :=
  (recs.filter (fun r => r.externalProductId ≠ "")).map
    (fun r => r.externalProductId)

/-- Modelled from the spec: reconciliation upserts — every fetched
record whose identifier validates (non-empty) is upserted in order;
records failing validation are skipped and not counted as upserted. -/
def applyUpserts (cred : String) (now : Nat) :
    List RawProduct → List ProductRecord → List ProductRecord × Nat
  | [], cache => (cache, 0)
  | r :: rest, cache =>
    if r.externalProductId = "" then applyUpserts cred now rest cache
    else
      ((applyUpserts cred now rest
          (upsert cred r.externalProductId r.payload now cache)).1,
        (applyUpserts cred now rest
          (upsert cred r.externalProductId r.payload now cache)).2 + 1)

/-- Modelled from the spec: `synchronize(credentialId, ...)` — drive
the pagination loop, upsert fetched records page-by-page, and, only
when all pages completed without fatal error, reconcile deletions by
soft-deleting prior records not seen in this run; an aborted run skips
reconciliation and closes as partial-success (`degraded`) when any
record was upserted, failure otherwise.  (The backend sync code is not
in the source tree; reconstructed from the specification's completion
semantics.) -/
def synchronize (cred : String) (client : Nat → FetchResult)
    (maxPages now : Nat) (cache : List ProductRecord) : SyncResult :=
  match syncPages client maxPages 0 none [] [] with
  | .completed recs pages ws =>
    let ids := validIds recs
    let up := applyUpserts cred now recs cache
    { cache := softDelete cred ids up.1, outcome := .success,
      fetchedIds := ids, upserted := up.2, pages := pages, warnings := ws }
  | .aborted recs pages ws _ =>
    let ids := validIds recs
    let up := applyUpserts cred now recs cache
    { cache := up.1,
      outcome := if up.2 = 0 then .failure else .degraded,
      fetchedIds := ids, upserted := up.2, pages := pages, warnings := ws }

/-! ## Cache Read Service (modelled from the spec) -/

/-- Freshness indicator returned with a read
(`incomplete` is the spec's partial indicator). -/
inductive Freshness where
  | fresh
  | staleServed
  | incomplete
  | syncedNow
deriving DecidableEq, Repr

/-- What a read returns: a page of records with a freshness indicator
and the total active count, or a hard error carrying the classified
cause of the failed sync. -/
inductive ReadResult where
  | ok (products : List ProductRecord) (freshness : Freshness) (total : Nat)
  | readError (cause : FetchError)
deriving DecidableEq, Repr

/-- Outcome of the sync the read path may trigger: either a new cache
state, or an outright failure with its classified cause. -/
inductive TriggeredSync where
  | succeeded (newCache : List ProductRecord)
  | failed (e : FetchError)
deriving Repr

/-- Modelled from the spec: the Cache Read Service's sync-trigger
condition — refresh forced, cache empty for the credential, cache
stale (age beyond TTL), or cache incomplete (active count below the
last known upstream total). -/
def needsSync (forceRefresh : Bool) (activeCount age ttl lastKnownTotal : Nat) :
    Bool :=
  forceRefresh || activeCount == 0 || decide (ttl < age)
    || decide (activeCount < lastKnownTotal)

/-- Modelled from the spec: `getProducts(credentialId, limit, offset,
forceRefresh)` — if the sync-trigger condition holds, invoke the Sync
Engine (its outcome given by `sync`) and serve the refreshed cache; if
that sync fails outright, serve the previously cached page with a
`stale-served` indicator when any cached records exist, and a hard
error only when none do; otherwise serve straight from cache as
`fresh` with no upstream request.  Returns the read result and
whether a sync was invoked.  (The backend read path is not in the
source tree; reconstructed from the specification.) -/
def getProducts (cred : String) (limit offset : Nat) (forceRefresh : Bool)
    (cache : List ProductRecord) (age ttl lastKnownTotal : Nat)
    (sync : TriggeredSync) : ReadResult × Bool :=
  if needsSync forceRefresh (countActive cred cache) age ttl lastKnownTotal then
    match sync with
    | .succeeded newCache =>
      (.ok (query cred limit offset true newCache) .syncedNow
        (countActive cred newCache), true)
    | .failed e =>
      if 0 < countActive cred cache then
        (.ok (query cred limit offset true cache) .staleServed
          (countActive cred cache), true)
      else
        (.readError e, true)
  else
    (.ok (query cred limit offset true cache) .fresh
      (countActive cred cache), false)

/-! ## Per-credential sync coalescing (modelled from the spec) -/

/-- The in-flight sync registry: the credentials currently syncing,
each with the identifier of its run. -/
structure SyncRegistry where
  inFlight : List (String × Nat)
deriving DecidableEq, Repr

/-- Look up the run id in flight for a credential, if any. -/
def findRun (cred : String) : List (String × Nat) → Option Nat
  | [] => none
  | (c, rid) :: t => if c = cred then some rid else findRun cred t

/-- Modelled from the spec: a synchronization request — if the
credential is already syncing the request is coalesced, returning the
existing run's id with the registry unchanged; otherwise a new run is
registered.  (The backend's per-credential mutual exclusion is not in
the source tree; reconstructed from the specification's concurrency
guarantee.) -/
def requestSync (reg : SyncRegistry) (cred : String) (newRunId : Nat) :
    SyncRegistry × Nat :=
  match findRun cred reg.inFlight with
  | some rid => (reg, rid)
  | none => (⟨(cred, newRunId) :: reg.inFlight⟩, newRunId)

/-- Modelled from the spec: a run for the credential finishes and its
in-flight marker is released. -/
def completeSync (reg : SyncRegistry) (cred : String) : SyncRegistry :=
  ⟨reg.inFlight.filter (fun p => p.1 ≠ cred)⟩

/-- Registry states reachable from the empty registry by sync requests
and completions. -/
inductive Reachable : SyncRegistry → Prop
  | init : Reachable ⟨[]⟩
  | request (reg : SyncRegistry) (cred : String) (newRunId : Nat) :
      Reachable reg → Reachable (requestSync reg cred newRunId).1
  | complete (reg : SyncRegistry) (cred : String) :
      Reachable reg → Reachable (completeSync reg cred)

/-! ## Products page (embedded from `products.tsx`) -/

/-- The request the products page issues to
`GET /api/v1/products/cached/` when it fetches. -/
structure FetchRequest where
  shopId : String
  limit : Nat
  offset : Nat
deriving DecidableEq, Repr

/-- The guard of `products.tsx`: the shop identifier is degenerate when
it is absent (empty), whitespace-only, or one of the literal strings
"undefined" / "null". -/
def isInvalidShopId (s : String) : Bool :=
  s == "" || s.trim == "" || s == "undefined" || s == "null"

/-- The fetch effect of `products.tsx`: with a degenerate shop id it
clears the loading flag and issues no request; otherwise it issues the
cached-products request with `offset = (currentPage - 1) * limit`.
Returns the request (if any) paired with the loading flag left for
rendering. -/
def productsFetchEffect (shopId : String) (currentPage limit : Nat) :
    Option FetchRequest × Bool :=
  if isInvalidShopId shopId then
    (none, false)
  else
    (some ⟨shopId, limit, (currentPage - 1) * limit⟩, true)

/-- What the products page renders. -/
inductive PageView where
  | selectShopPrompt
  | productsView
deriving DecidableEq, Repr

/-- The render guard of `products.tsx`: with a degenerate shop id and
loading finished, the page renders the select-a-shop prompt. -/
def renderProductsPage (shopId : String) (loading : Bool) : PageView :=
  if isInvalidShopId shopId && !loading then .selectShopPrompt
  else .productsView

/-! ## Cache Store lemmas -/

theorem keyMatch_mkRecord (cred pid pl : String) (t : Nat) :
    keyMatch cred pid (mkRecord cred pid pl t) = true := by
  simp [keyMatch, mkRecord]

theorem map_replace_eq_self (cred pid pl : String) (t : Nat)
    (cache : List ProductRecord)
    (h : cache.any (keyMatch cred pid) = false) :
    cache.map (fun r =>
      if keyMatch cred pid r then mkRecord cred pid pl t else r) = cache := by
  induction cache with
  | nil => rfl
  | cons a tl ih =>
    simp only [List.any_cons, Bool.or_eq_false_iff] at h
    simp [h.1, ih h.2]

theorem any_keyMatch_upsert (cred pid pl : String) (t : Nat)
    (cache : List ProductRecord) :
    (upsert cred pid pl t cache).any (keyMatch cred pid) = true := by
  unfold upsert
  by_cases h : cache.any (keyMatch cred pid) = true
  · rw [if_pos h]
    obtain ⟨r, hr, hk⟩ := List.any_eq_true.mp h
    refine List.any_eq_true.mpr ⟨mkRecord cred pid pl t, ?_, keyMatch_mkRecord ..⟩
    exact List.mem_map.mpr ⟨r, hr, if_pos hk⟩
  · rw [if_neg h]
    exact List.any_eq_true.mpr
      ⟨mkRecord cred pid pl t, List.mem_append_right _ (List.mem_singleton_self _),
        keyMatch_mkRecord ..⟩

theorem mem_upsert_self (cred pid pl : String) (t : Nat)
    (cache : List ProductRecord) :
    mkRecord cred pid pl t ∈ upsert cred pid pl t cache := by
  unfold upsert
  by_cases h : cache.any (keyMatch cred pid) = true
  · rw [if_pos h]
    obtain ⟨r, hr, hk⟩ := List.any_eq_true.mp h
    exact List.mem_map.mpr ⟨r, hr, if_pos hk⟩
  · rw [if_neg h]
    exact List.mem_append_right _ (List.mem_singleton_self _)

theorem mem_upsert_of_not_key (cred pid pl : String) (t : Nat)
    {cache : List ProductRecord} {r : ProductRecord} (hr : r ∈ cache)
    (hk : keyMatch cred pid r = false) :
    r ∈ upsert cred pid pl t cache := by
  unfold upsert
  by_cases h : cache.any (keyMatch cred pid) = true
  · rw [if_pos h]
    exact List.mem_map.mpr ⟨r, hr, if_neg (by simp [hk])⟩
  · rw [if_neg h]
    exact List.mem_append_left _ hr

theorem upsert_upsert (cred pid pl1 pl2 : String) (t1 t2 : Nat)
    (cache : List ProductRecord) :
    upsert cred pid pl2 t2 (upsert cred pid pl1 t1 cache)
      = upsert cred pid pl2 t2 cache := by
  by_cases h : cache.any (keyMatch cred pid) = true
  · have h1 : upsert cred pid pl1 t1 cache
        = cache.map (fun r =>
            if keyMatch cred pid r then mkRecord cred pid pl1 t1 else r) := by
      unfold upsert; rw [if_pos h]
    have h2 : (upsert cred pid pl1 t1 cache).any (keyMatch cred pid) = true :=
      any_keyMatch_upsert ..
    conv_lhs => rw [upsert, if_pos h2]
    conv_rhs => rw [upsert, if_pos h]
    rw [h1, List.map_map]
    refine List.map_congr_left ?_
    intro r _
    by_cases hk : keyMatch cred pid r = true
    · simp [Function.comp, hk, keyMatch_mkRecord]
    · simp only [Bool.not_eq_true] at hk
      simp [Function.comp, hk]
  · simp only [Bool.not_eq_true] at h
    have h1 : upsert cred pid pl1 t1 cache
        = cache ++ [mkRecord cred pid pl1 t1] := by
      unfold upsert; rw [if_neg (by simp [h])]
    have h2 : (upsert cred pid pl1 t1 cache).any (keyMatch cred pid) = true :=
      any_keyMatch_upsert ..
    conv_lhs => rw [upsert, if_pos h2]
    conv_rhs => rw [upsert, if_neg (by simp [h])]
    rw [h1, List.map_append, map_replace_eq_self cred pid pl2 t2 cache h]
    simp [keyMatch_mkRecord]

theorem find?_upsert (cred pid pl : String) (t : Nat)
    (cache : List ProductRecord) :
    (upsert cred pid pl t cache).find? (keyMatch cred pid)
      = some (mkRecord cred pid pl t) := by
  unfold upsert
  by_cases h : cache.any (keyMatch cred pid) = true
  · rw [if_pos h]
    induction cache with
    | nil => simp at h
    | cons a tl ih =>
      by_cases ha : keyMatch cred pid a = true
      · simp [ha, keyMatch_mkRecord]
      · simp only [Bool.not_eq_true] at ha
        have htl : tl.any (keyMatch cred pid) = true := by
          simp only [List.any_cons, ha, Bool.false_or] at h
          exact h
        simp only [List.map_cons, ha, Bool.false_eq_true, if_false,
          List.find?_cons, ha]
        exact ih htl
  · simp only [Bool.not_eq_true] at h
    rw [if_neg (by simp [h])]
    induction cache with
    | nil => simp [keyMatch_mkRecord]
    | cons a tl ih =>
      simp only [List.any_cons, Bool.or_eq_false_iff] at h
      simp only [List.cons_append, List.find?_cons, h.1]
      exact ih h.2

theorem keyMatch_eq_true (cred pid : String) (r : ProductRecord) :
    keyMatch cred pid r = true ↔
      r.credentialId = cred ∧ r.externalProductId = pid := by
  simp [keyMatch]

theorem keyMatch_eq_false (cred pid : String) (r : ProductRecord) :
    keyMatch cred pid r = false ↔
      r.credentialId ≠ cred ∨ r.externalProductId ≠ pid := by
  rw [Bool.eq_false_iff, Ne, keyMatch_eq_true]
  exact not_and_or

theorem uniqueKeys_upsert (cred pid pl : String) (t : Nat)
    {cache : List ProductRecord} (h : uniqueKeys cache) :
    uniqueKeys (upsert cred pid pl t cache) := by
  unfold upsert
  by_cases hany : cache.any (keyMatch cred pid) = true
  · rw [if_pos hany]
    unfold uniqueKeys at h ⊢
    rw [List.pairwise_map]
    refine h.imp ?_
    intro a b hab
    by_cases ha : keyMatch cred pid a = true
    · by_cases hb : keyMatch cred pid b = true
      · exfalso
        rw [keyMatch_eq_true] at ha hb
        rcases hab with hc | he
        · exact hc (ha.1.trans hb.1.symm)
        · exact he (ha.2.trans hb.2.symm)
      · simp only [Bool.not_eq_true] at hb
        rw [if_pos ha, if_neg (by simp [hb])]
        rcases (keyMatch_eq_false cred pid b).mp hb with hc | he
        · exact Or.inl (by simp only [mkRecord]; exact fun hx => hc hx.symm)
        · exact Or.inr (by simp only [mkRecord]; exact fun hx => he hx.symm)
    · simp only [Bool.not_eq_true] at ha
      rw [if_neg (by simp [ha])]
      by_cases hb : keyMatch cred pid b = true
      · rw [if_pos hb]
        rcases (keyMatch_eq_false cred pid a).mp ha with hc | he
        · exact Or.inl (by simp only [mkRecord]; exact hc)
        · exact Or.inr (by simp only [mkRecord]; exact he)
      · simp only [Bool.not_eq_true] at hb
        rw [if_neg (by simp [hb])]
        exact hab
  · simp only [Bool.not_eq_true] at hany
    rw [if_neg (by simp [hany])]
    unfold uniqueKeys at h ⊢
    rw [List.pairwise_append]
    refine ⟨h, List.pairwise_singleton .., ?_⟩
    intro a ha b hb
    rw [List.mem_singleton] at hb
    subst hb
    have hk : keyMatch cred pid a = false := by
      simpa using List.any_eq_false.mp hany a ha
    rcases (keyMatch_eq_false cred pid a).mp hk with hc | he
    · exact Or.inl (by simp only [mkRecord]; exact hc)
    · exact Or.inr (by simp only [mkRecord]; exact he)

/-! ## Reconciliation lemmas -/

theorem mem_applyUpserts_of_not_key (cred : String) (now : Nat)
    (recs : List RawProduct) {cache : List ProductRecord} {r : ProductRecord}
    (hr : r ∈ cache)
    (hk : ∀ q ∈ recs, q.externalProductId ≠ "" →
      keyMatch cred q.externalProductId r = false) :
    r ∈ (applyUpserts cred now recs cache).1 := by
  induction recs generalizing cache with
  | nil => exact hr
  | cons q rest ih =>
    by_cases hq : q.externalProductId = ""
    · rw [applyUpserts, if_pos hq]
      exact ih hr (fun p hp hv => hk p (List.mem_cons_of_mem q hp) hv)
    · rw [applyUpserts, if_neg hq]
      exact ih
        (mem_upsert_of_not_key cred q.externalProductId q.payload now hr
          (hk q (List.mem_cons_self q rest) hq))
        (fun p hp hv => hk p (List.mem_cons_of_mem q hp) hv)

theorem active_preserved_upsert (cred pid pl : String) (t : Nat)
    {cache : List ProductRecord} {r : ProductRecord}
    (hr : r ∈ cache) (ha : r.isActive = true) :
    ∃ s ∈ upsert cred pid pl t cache,
      s.credentialId = r.credentialId
        ∧ s.externalProductId = r.externalProductId ∧ s.isActive = true := by
  by_cases hk : keyMatch cred pid r = true
  · obtain ⟨h1, h2⟩ := (keyMatch_eq_true cred pid r).mp hk
    exact ⟨mkRecord cred pid pl t, mem_upsert_self cred pid pl t cache,
      by simp [mkRecord, h1], by simp [mkRecord, h2], rfl⟩
  · simp only [Bool.not_eq_true] at hk
    exact ⟨r, mem_upsert_of_not_key cred pid pl t hr hk, rfl, rfl, ha⟩

theorem active_preserved_applyUpserts (cred : String) (now : Nat)
    (recs : List RawProduct) {cache : List ProductRecord} {r : ProductRecord}
    (hr : r ∈ cache) (ha : r.isActive = true) :
    ∃ s ∈ (applyUpserts cred now recs cache).1,
      s.credentialId = r.credentialId
        ∧ s.externalProductId = r.externalProductId ∧ s.isActive = true := by
  induction recs generalizing cache r with
  | nil => exact ⟨r, hr, rfl, rfl, ha⟩
  | cons q rest ih =>
    by_cases hq : q.externalProductId = ""
    · rw [applyUpserts, if_pos hq]
      exact ih hr ha
    · rw [applyUpserts, if_neg hq]
      obtain ⟨s, hs, e1, e2, e3⟩ :=
        active_preserved_upsert cred q.externalProductId q.payload now hr ha
      obtain ⟨u, hu, f1, f2, f3⟩ := ih hs e3
      exact ⟨u, hu, f1.trans e1, f2.trans e2, f3⟩

theorem mem_validIds {recs : List RawProduct} {q : RawProduct}
    (hq : q ∈ recs) (hv : q.externalProductId ≠ "") :
    q.externalProductId ∈ validIds recs := by
  unfold validIds
  exact List.mem_map.mpr ⟨q, List.mem_filter.mpr ⟨hq, by simpa using hv⟩, rfl⟩

theorem softDelete_inactive (cred : String) (excluding : List String)
    (cache : List ProductRecord) :
    ∀ r ∈ softDelete cred excluding cache, r.credentialId = cred →
      r.externalProductId ∉ excluding → r.isActive = false := by
  intro r hr hcred hnot
  unfold softDelete at hr
  obtain ⟨s, _, heq⟩ := List.mem_map.mp hr
  by_cases hc : s.credentialId = cred ∧ s.isActive = true
      ∧ s.externalProductId ∉ excluding
  · rw [if_pos hc] at heq
    rw [← heq]
  · rw [if_neg hc] at heq
    subst heq
    push_neg at hc
    by_cases hact : s.isActive = true
    · exact absurd (hc hcred hact) hnot
    · simpa using hact

/-! ## Query lemmas -/

theorem query_pairwise (cred : String) (limit offset : Nat)
    (activeOnly : Bool) (cache : List ProductRecord) :
    (query cred limit offset activeOnly cache).Pairwise byUpdatedDesc := by
  unfold query
  have hs := List.sorted_insertionSort byUpdatedDesc
    (cache.filter (fun r => r.credentialId == cred && (!activeOnly || r.isActive)))
  exact hs.sublist
    ((List.take_sublist ..).trans (List.drop_sublist ..))

theorem mem_cache_of_mem_query (cred : String) (limit offset : Nat)
    (activeOnly : Bool) (cache : List ProductRecord) (r : ProductRecord)
    (hr : r ∈ query cred limit offset activeOnly cache) :
    r ∈ cache ∧ (r.credentialId == cred && (!activeOnly || r.isActive)) = true := by
  unfold query at hr
  have h1 := List.mem_of_mem_drop (List.mem_of_mem_take hr)
  rw [List.mem_insertionSort] at h1
  exact List.mem_filter.mp h1

/-! ## Pagination loop lemmas -/

theorem syncPages_pages_le (client : Nat → FetchResult) :
    ∀ (fuel i : Nat) (prev : Option (List RawProduct))
      (acc : List RawProduct) (ws : List Warning),
      (syncPages client fuel i prev acc ws).pages ≤ i + fuel := by
  intro fuel
  induction fuel with
  | zero =>
    intro i prev acc ws
    simp [syncPages, LoopResult.pages]
  | succ n ih =>
    intro i prev acc ws
    rw [syncPages]
    cases hc : client i with
    | err e => simp [LoopResult.pages]
    | page rs hasMore =>
      by_cases hp : prev = some rs
      · simp [hp, LoopResult.pages]
      · by_cases he : (rs.isEmpty || !hasMore) = true
        · simp [hp, he, LoopResult.pages]
        · have h2 := ih (i + 1) (some rs) (acc ++ rs) ws
          simp [hp, he]
          omega

theorem runSyncLoop_pages_le (client : Nat → FetchResult) (maxPages : Nat) :
    (runSyncLoop client maxPages).pages ≤ maxPages := by
  simpa using syncPages_pages_le client maxPages 0 none [] []

theorem runSyncLoop_repeated (client : Nat → FetchResult)
    (rs : List RawProduct) (maxPages : Nat)
    (hclient : ∀ i, client i = FetchResult.page rs true) (hrs : rs ≠ [])
    (hmp : 2 ≤ maxPages) :
    runSyncLoop client maxPages
      = LoopResult.completed rs 2 [Warning.paginationAnomaly] := by
  obtain ⟨k, hk⟩ := Nat.exists_eq_add_of_le hmp
  subst hk
  have hne : rs.isEmpty = false := by
    cases rs with
    | nil => exact absurd rfl hrs
    | cons a l => rfl
  rw [runSyncLoop, show 2 + k = Nat.succ (Nat.succ k) by omega]
  simp [syncPages, hclient, hne]

/-! ## Synchronize unfolding lemmas -/

theorem synchronize_of_completed (cred : String) (client : Nat → FetchResult)
    (maxPages now : Nat) (cache : List ProductRecord)
    (recs : List RawProduct) (pages : Nat) (ws : List Warning)
    (h : syncPages client maxPages 0 none [] []
      = LoopResult.completed recs pages ws) :
    synchronize cred client maxPages now cache =
      { cache := softDelete cred (validIds recs)
          (applyUpserts cred now recs cache).1,
        outcome := RunOutcome.success,
        fetchedIds := validIds recs,
        upserted := (applyUpserts cred now recs cache).2,
        pages := pages, warnings := ws } := by
  unfold synchronize
  rw [h]

theorem synchronize_of_aborted (cred : String) (client : Nat → FetchResult)
    (maxPages now : Nat) (cache : List ProductRecord)
    (recs : List RawProduct) (pages : Nat) (ws : List Warning)
    (cause : AbortCause)
    (h : syncPages client maxPages 0 none [] []
      = LoopResult.aborted recs pages ws cause) :
    synchronize cred client maxPages now cache =
      { cache := (applyUpserts cred now recs cache).1,
        outcome := if (applyUpserts cred now recs cache).2 = 0
          then RunOutcome.failure else RunOutcome.degraded,
        fetchedIds := validIds recs,
        upserted := (applyUpserts cred now recs cache).2,
        pages := pages, warnings := ws } := by
  unfold synchronize
  rw [h]

theorem mem_query_all_of_active (cred : String) (cache : List ProductRecord)
    (r : ProductRecord) (hr : r ∈ cache) (hc : r.credentialId = cred)
    (ha : r.isActive = true) :
    r ∈ query cred cache.length 0 true cache := by
  unfold query
  rw [List.drop_zero, List.take_of_length_le
    (by rw [List.length_insertionSort]; exact List.length_filter_le _ _)]
  rw [List.mem_insertionSort]
  exact List.mem_filter.mpr ⟨hr, by simp [hc, ha]⟩

/-! ## Claim theorems -/

/-- C5: Idempotent upsert — applying `upsert` of the same record twice
in succession yields the same stored state as applying it once (the
second call absorbs the first even across differing call times), no
duplicate rows are created for the key `(credentialId,
externalProductId)`, and the stored row for the key carries the
`lastUpdatedAt` of the latest call. -/
theorem C5_idempotent_upsert (cache : List ProductRecord)
    (cred pid pl : String) (t1 t2 : Nat) (h : uniqueKeys cache) :
    upsert cred pid pl t2 (upsert cred pid pl t1 cache)
        = upsert cred pid pl t2 cache
    ∧ uniqueKeys (upsert cred pid pl t2 cache)
    ∧ (upsert cred pid pl t2 cache).find? (keyMatch cred pid)
        = some (mkRecord cred pid pl t2) :=
  ⟨upsert_upsert cred pid pl pl t1 t2 cache,
    uniqueKeys_upsert cred pid pl t2 h,
    find?_upsert cred pid pl t2 cache⟩

/-- Witness for C5 at a concrete cache and record. -/
theorem C5_idempotent_upsert_witness :
    upsert "c" "A" "x" 7 (upsert "c" "A" "x" 3 [])
        = upsert "c" "A" "x" 7 []
    ∧ uniqueKeys (upsert "c" "A" "x" 7 [])
    ∧ (upsert "c" "A" "x" 7 []).find? (keyMatch "c" "A")
        = some (mkRecord "c" "A" "x" 7) :=
  C5_idempotent_upsert [] "c" "A" "x" 3 7 List.Pairwise.nil

/-- C6: Identifier type preservation — a product with any string
`externalProductId` (such as "ABC-123") stored via `upsert` is
returned by `query` with identifier and payload unchanged: the
identifier is a string end to end, never truncated or coerced to an
integer. -/
theorem C6_identifier_type_preservation (cache : List ProductRecord)
    (cred pid pl : String) (t : Nat) :
    ∃ r ∈ query cred (upsert cred pid pl t cache).length 0 true
        (upsert cred pid pl t cache),
      r.externalProductId = pid ∧ r.payload = pl := by
  refine ⟨mkRecord cred pid pl t, ?_, rfl, rfl⟩
  exact mem_query_all_of_active cred (upsert cred pid pl t cache)
    (mkRecord cred pid pl t) (mem_upsert_self cred pid pl t cache) rfl rfl

/-- C7: Query ordering — `query(credentialId, limit, offset,
activeOnly=true)` returns records ordered by `lastUpdatedAt`
descending, every returned record belonging to the queried credential
and active; and every active record of the credential is returned when
the page covers the whole cache. -/
theorem C7_query_ordering (cred : String) (limit offset : Nat)
    (cache : List ProductRecord) :
    (query cred limit offset true cache).Pairwise byUpdatedDesc
    ∧ (∀ r ∈ query cred limit offset true cache,
        r ∈ cache ∧ r.credentialId = cred ∧ r.isActive = true)
    ∧ (∀ r ∈ cache, r.credentialId = cred → r.isActive = true →
        r ∈ query cred cache.length 0 true cache) := by
  refine ⟨query_pairwise cred limit offset true cache, ?_, ?_⟩
  · intro r hr
    obtain ⟨h1, h2⟩ := mem_cache_of_mem_query cred limit offset true cache r hr
    simp only [Bool.not_true, Bool.false_or, Bool.and_eq_true, beq_iff_eq] at h2
    exact ⟨h1, h2.1, h2.2⟩
  · intro r hr hc ha
    exact mem_query_all_of_active cred cache r hr hc ha

/-- Witness for C7 at a concrete cache. -/
theorem C7_query_ordering_witness :
    (⟨"c", "B", "pb", 9, true⟩ : ProductRecord)
        ∈ [⟨"c", "A", "pa", 5, true⟩, ⟨"c", "B", "pb", 9, true⟩,
            ⟨"d", "X", "px", 7, true⟩, ⟨"c", "C", "pc", 1, false⟩]
      ∧ (⟨"c", "B", "pb", 9, true⟩ : ProductRecord).credentialId = "c"
      ∧ (⟨"c", "B", "pb", 9, true⟩ : ProductRecord).isActive = true :=
  (C7_query_ordering "c" 10 0
      [⟨"c", "A", "pa", 5, true⟩, ⟨"c", "B", "pb", 9, true⟩,
        ⟨"d", "X", "px", 7, true⟩, ⟨"c", "C", "pc", 1, false⟩]).2.1
    ⟨"c", "B", "pb", 9, true⟩ (by decide)

/-- C1: Soft-delete correctness of reconciliation — when a sync run
completes all pages (outcome `success`), every record of the
credential whose identifier is absent from the run's fetched result
set is inactive afterwards; when a run aborts (partial-success
`degraded` or `failure`), reconciliation is skipped: every previously
active record still has an active row for its key, and records whose
key was not touched by the run's upserts are left in the cache
unchanged. -/
theorem C1_soft_delete_correctness (cred : String)
    (client : Nat → FetchResult) (maxPages now : Nat)
    (cache : List ProductRecord) (res : SyncResult)
    (hres : synchronize cred client maxPages now cache = res) :
    (res.outcome = RunOutcome.success →
      ∀ r ∈ res.cache, r.credentialId = cred →
        r.externalProductId ∉ res.fetchedIds → r.isActive = false)
    ∧ (res.outcome ≠ RunOutcome.success →
      ∀ r ∈ cache,
        (r.isActive = true →
          ∃ s ∈ res.cache, s.credentialId = r.credentialId
            ∧ s.externalProductId = r.externalProductId
            ∧ s.isActive = true)
        ∧ (r.externalProductId ∉ res.fetchedIds → r ∈ res.cache)) := by
  cases hloop : syncPages client maxPages 0 none [] [] with
  | completed recs pages ws =>
    rw [synchronize_of_completed cred client maxPages now cache recs pages ws
      hloop] at hres
    subst hres
    constructor
    · intro _ r hr hcred hnot
      exact softDelete_inactive cred (validIds recs)
        (applyUpserts cred now recs cache).1 r hr hcred hnot
    · intro hout
      exact absurd rfl hout
  | aborted recs pages ws cause =>
    rw [synchronize_of_aborted cred client maxPages now cache recs pages ws
      cause hloop] at hres
    subst hres
    constructor
    · intro hout
      exfalso
      have h2 : (if (applyUpserts cred now recs cache).2 = 0
          then RunOutcome.failure else RunOutcome.degraded)
          = RunOutcome.success := hout
      split at h2 <;> cases h2
    · intro _ r hr
      refine ⟨fun ha => active_preserved_applyUpserts cred now recs hr ha,
        fun hnot => ?_⟩
      refine mem_applyUpserts_of_not_key cred now recs hr ?_
      intro q hq hv
      rw [keyMatch_eq_false]
      by_cases hc : r.credentialId = cred
      · refine Or.inr (fun he => hnot ?_)
        rw [he]
        exact mem_validIds hq hv
      · exact Or.inl hc

/-- Witness for C1: a completed run over a one-page catalog containing
only product "A" soft-deletes the previously cached record "B". -/
theorem C1_soft_delete_correctness_witness :
    (synchronize "c"
        (fun i => if i = 0 then FetchResult.page [⟨"A", "pa"⟩] false
          else FetchResult.page [] false) 5 10
        [⟨"c", "B", "pb", 1, true⟩]).outcome = RunOutcome.success
    ∧ (⟨"c", "B", "pb", 1, false⟩ : ProductRecord).isActive = false :=
  ⟨by decide,
    (C1_soft_delete_correctness "c"
        (fun i => if i = 0 then FetchResult.page [⟨"A", "pa"⟩] false
          else FetchResult.page [] false) 5 10
        [⟨"c", "B", "pb", 1, true⟩]
        (synchronize "c"
          (fun i => if i = 0 then FetchResult.page [⟨"A", "pa"⟩] false
            else FetchResult.page [] false) 5 10
          [⟨"c", "B", "pb", 1, true⟩]) rfl).1
      (by decide) ⟨"c", "B", "pb", 1, false⟩ (by decide) rfl (by decide)⟩

/-- C2: Stale-serve on sync failure — whenever a read triggers a sync
and that sync fails outright, the read returns the previously cached
page with the `stale-served` freshness indicator if any cached records
exist for the credential; a hard error is returned only when no
cached data exists. -/
theorem C2_stale_serve_on_sync_failure (cred : String) (limit offset : Nat)
    (forceRefresh : Bool) (cache : List ProductRecord)
    (age ttl lastKnownTotal : Nat) (e : FetchError)
    (htrig : needsSync forceRefresh (countActive cred cache) age ttl
      lastKnownTotal = true) :
    (0 < countActive cred cache →
      getProducts cred limit offset forceRefresh cache age ttl lastKnownTotal
          (TriggeredSync.failed e)
        = (ReadResult.ok (query cred limit offset true cache)
            Freshness.staleServed (countActive cred cache), true))
    ∧ (countActive cred cache = 0 →
      getProducts cred limit offset forceRefresh cache age ttl lastKnownTotal
          (TriggeredSync.failed e)
        = (ReadResult.readError e, true)) := by
  constructor
  · intro hpos
    simp [getProducts, htrig, hpos]
  · intro hz
    have htrig2 := htrig
    rw [hz] at htrig2
    simp [getProducts, hz, htrig2]

/-- Witness for C2: one active cached record, TTL exceeded, sync
fails — the cached page is served stale. -/
theorem C2_stale_serve_on_sync_failure_witness :
    getProducts "c" 10 0 false [⟨"c", "A", "pa", 5, true⟩] 10 5 0
        (TriggeredSync.failed FetchError.timeout)
      = (ReadResult.ok (query "c" 10 0 true [⟨"c", "A", "pa", 5, true⟩])
          Freshness.staleServed
          (countActive "c" [⟨"c", "A", "pa", 5, true⟩]), true) :=
  (C2_stale_serve_on_sync_failure "c" 10 0 false [⟨"c", "A", "pa", 5, true⟩]
      10 5 0 FetchError.timeout (by decide)).1 (by decide)

/-- C8: Sync-trigger condition — a `getProducts` call invokes a sync
if and only if the refresh is forced, the cache holds no active
records for the credential, the cache is stale (age beyond TTL), or
the cache is incomplete (active count below the last known upstream
total); otherwise the call is served from cache as `fresh` with no
sync invoked. -/
theorem C8_sync_trigger_condition (cred : String) (limit offset : Nat)
    (forceRefresh : Bool) (cache : List ProductRecord)
    (age ttl lastKnownTotal : Nat) (sync : TriggeredSync) :
    ((getProducts cred limit offset forceRefresh cache age ttl lastKnownTotal
        sync).2 = true
      ↔ (forceRefresh = true ∨ countActive cred cache = 0 ∨ ttl < age
          ∨ countActive cred cache < lastKnownTotal))
    ∧ (¬(forceRefresh = true ∨ countActive cred cache = 0 ∨ ttl < age
          ∨ countActive cred cache < lastKnownTotal) →
      getProducts cred limit offset forceRefresh cache age ttl lastKnownTotal
          sync
        = (ReadResult.ok (query cred limit offset true cache) Freshness.fresh
            (countActive cred cache), false)) := by
  have hns : needsSync forceRefresh (countActive cred cache) age ttl
      lastKnownTotal = true
      ↔ (forceRefresh = true ∨ countActive cred cache = 0 ∨ ttl < age
          ∨ countActive cred cache < lastKnownTotal) := by
    simp [needsSync]
    tauto
  have heq1 : needsSync forceRefresh (countActive cred cache) age ttl
      lastKnownTotal = true →
      (getProducts cred limit offset forceRefresh cache age ttl lastKnownTotal
        sync).2 = true := by
    intro hn
    cases sync with
    | succeeded newCache => simp [getProducts, hn]
    | failed e =>
      by_cases hp : 0 < countActive cred cache
      · simp [getProducts, hn, hp]
      · simp [getProducts, hn, hp]
  have heq2 : needsSync forceRefresh (countActive cred cache) age ttl
      lastKnownTotal = false →
      getProducts cred limit offset forceRefresh cache age ttl lastKnownTotal
          sync
        = (ReadResult.ok (query cred limit offset true cache) Freshness.fresh
            (countActive cred cache), false) := by
    intro hn
    simp [getProducts, hn]
  constructor
  · constructor
    · intro h2
      by_cases hn : needsSync forceRefresh (countActive cred cache) age ttl
          lastKnownTotal = true
      · exact hns.mp hn
      · rw [heq2 (by simpa using hn)] at h2
        cases h2
    · intro hd
      exact heq1 (hns.mpr hd)
  · intro hcon
    by_cases hn : needsSync forceRefresh (countActive cred cache) age ttl
        lastKnownTotal = true
    · exact absurd (hns.mp hn) hcon
    · exact heq2 (by simpa using hn)

/-- Witness for C8: a fresh, complete, unforced cache read — no sync
is invoked and the page is served `fresh`. -/
theorem C8_sync_trigger_condition_witness :
    getProducts "c" 10 0 false [⟨"c", "A", "pa", 5, true⟩] 3 5 1
        (TriggeredSync.failed FetchError.timeout)
      = (ReadResult.ok (query "c" 10 0 true [⟨"c", "A", "pa", 5, true⟩])
          Freshness.fresh
          (countActive "c" [⟨"c", "A", "pa", 5, true⟩]), false) :=
  (C8_sync_trigger_condition "c" 10 0 false [⟨"c", "A", "pa", 5, true⟩]
      3 5 1 (TriggeredSync.failed FetchError.timeout)).2 (by decide)

/-- C3: Per-page retry bound — against a client that fails every
attempt with a retryable error, exactly 3 attempts are made (1
original plus 2 retries) with backoff delays 2s then 4s before the
page is marked failed; a non-retryable failure aborts the page on the
first attempt with no retry and no backoff. -/
theorem C3_per_page_retry_bound (client : Nat → FetchResult) :
    ((∀ i, ∃ e, client i = FetchResult.err e ∧ e.retryable = true) →
      ∃ e, fetchPageWithRetry client = (FetchResult.err e, 3, [2, 4]))
    ∧ (∀ e : FetchError, e.retryable = false →
      client 0 = FetchResult.err e →
      fetchPageWithRetry client = (FetchResult.err e, 1, [])) := by
  constructor
  · intro h
    obtain ⟨e0, h0, r0⟩ := h 0
    obtain ⟨e1, h1, r1⟩ := h 1
    obtain ⟨e2, h2, _⟩ := h 2
    refine ⟨e2, ?_⟩
    show fetchAttempts client 0 [2, 4] = (FetchResult.err e2, 3, [2, 4])
    norm_num [fetchAttempts, h0, r0, h1, r1, h2]
  · intro e hre h0
    show fetchAttempts client 0 [2, 4] = (FetchResult.err e, 1, [])
    simp only [fetchAttempts, h0, hre, Bool.false_eq_true, if_false]

/-- Witness for C3: a client that always times out consumes all 3
attempts; a client rejected for authentication is not retried. -/
theorem C3_per_page_retry_bound_witness :
    (∃ e, fetchPageWithRetry (fun _ => FetchResult.err FetchError.timeout)
      = (FetchResult.err e, 3, [2, 4]))
    ∧ fetchPageWithRetry (fun _ => FetchResult.err FetchError.auth)
      = (FetchResult.err FetchError.auth, 1, []) :=
  ⟨(C3_per_page_retry_bound (fun _ => FetchResult.err FetchError.timeout)).1
      (fun _ => ⟨FetchError.timeout, rfl, rfl⟩),
    (C3_per_page_retry_bound (fun _ => FetchResult.err FetchError.auth)).2
      FetchError.auth rfl rfl⟩

/-- C4: Pagination anomaly containment — every sync run attempts at
most the configured maximum number of pages (so it never loops
indefinitely), and against a client that returns page 1's content for
every requested offset the run detects the repeated page, treats it as
the terminal page (stopping after 2 pages) and records a
`PaginationAnomaly` warning. -/
theorem C4_pagination_anomaly_containment (client : Nat → FetchResult)
    (maxPages : Nat) (rs : List RawProduct) :
    (runSyncLoop client maxPages).pages ≤ maxPages
    ∧ ((∀ i, client i = FetchResult.page rs true) → rs ≠ [] →
      2 ≤ maxPages →
      runSyncLoop client maxPages
        = LoopResult.completed rs 2 [Warning.paginationAnomaly]) :=
  ⟨runSyncLoop_pages_le client maxPages,
    fun hclient hrs hmp => runSyncLoop_repeated client rs maxPages hclient
      hrs hmp⟩

/-- Witness for C4: a client that always returns the same non-empty
first page — the bounded run stops after 2 pages with the anomaly
warning. -/
theorem C4_pagination_anomaly_containment_witness :
    (runSyncLoop (fun _ => FetchResult.page [⟨"A", "pa"⟩] true) 5).pages ≤ 5
    ∧ runSyncLoop (fun _ => FetchResult.page [⟨"A", "pa"⟩] true) 5
      = LoopResult.completed [⟨"A", "pa"⟩] 2 [Warning.paginationAnomaly] :=
  ⟨(C4_pagination_anomaly_containment
      (fun _ => FetchResult.page [⟨"A", "pa"⟩] true) 5 [⟨"A", "pa"⟩]).1,
    (C4_pagination_anomaly_containment
        (fun _ => FetchResult.page [⟨"A", "pa"⟩] true) 5 [⟨"A", "pa"⟩]).2
      (fun _ => rfl) (by decide) (by decide)⟩

theorem findRun_eq_none {cred : String} :
    ∀ {l : List (String × Nat)}, findRun cred l = none →
      ∀ p ∈ l, p.1 ≠ cred := by
  intro l
  induction l with
  | nil =>
    intro _ p hp
    cases hp
  | cons a t ih =>
    obtain ⟨c, rid⟩ := a
    intro h p hp
    rw [findRun] at h
    by_cases hc : c = cred
    · rw [if_pos hc] at h
      cases h
    · rw [if_neg hc] at h
      rcases List.mem_cons.mp hp with hpa | hpt
      · subst hpa
        exact hc
      · exact ih h p hpt

/-- C9: Single sync per credential — in every registry state reachable
from the empty registry, no credential has two in-flight runs; and a
sync request for a credential that is already syncing is coalesced: it
receives the existing run's id and the registry is unchanged (no
duplicate run is started). -/
theorem C9_single_sync_per_credential :
    (∀ reg : SyncRegistry, Reachable reg →
      (reg.inFlight.map Prod.fst).Nodup)
    ∧ (∀ (reg : SyncRegistry) (cred : String) (rid newRunId : Nat),
        findRun cred reg.inFlight = some rid →
        requestSync reg cred newRunId = (reg, rid)) := by
  constructor
  · intro reg hreach
    induction hreach with
    | init => simp
    | request reg cred newRunId _ ih =>
      unfold requestSync
      cases hf : findRun cred reg.inFlight with
      | some rid => exact ih
      | none =>
        show (((cred, newRunId) :: reg.inFlight).map Prod.fst).Nodup
        rw [List.map_cons, List.nodup_cons]
        refine ⟨?_, ih⟩
        intro hmem
        obtain ⟨p, hp, hpe⟩ := List.mem_map.mp hmem
        exact findRun_eq_none hf p hp hpe
    | complete reg cred _ ih =>
      unfold completeSync
      exact ih.sublist ((List.filter_sublist _).map Prod.fst)
  · intro reg cred rid newRunId h
    unfold requestSync
    rw [h]

/-- Witness for C9: the empty registry is reachable and duplicate-free,
and a request for credential "c" while run 7 is in flight returns run
7 with the registry unchanged. -/
theorem C9_single_sync_per_credential_witness :
    (((⟨[]⟩ : SyncRegistry).inFlight.map Prod.fst).Nodup)
    ∧ requestSync ⟨[("c", 7)]⟩ "c" 99 = (⟨[("c", 7)]⟩, 7) :=
  ⟨C9_single_sync_per_credential.1 ⟨[]⟩ Reachable.init,
    C9_single_sync_per_credential.2 ⟨[("c", 7)]⟩ "c" 7 99 rfl⟩

/-- C10: Shop-identifier guard on the products page — for every shop
identifier that is absent (empty), whitespace-only, or one of the
literal strings "undefined" / "null", the fetch effect issues no
cached-products request (and clears the loading flag), and the page
renders the select-a-shop prompt. -/
theorem C10_shop_id_guard (s : String) (currentPage limit : Nat)
    (h : s = "" ∨ s.trim = "" ∨ s = "undefined" ∨ s = "null") :
    productsFetchEffect s currentPage limit = (none, false)
    ∧ renderProductsPage s false = PageView.selectShopPrompt := by
  have hb : isInvalidShopId s = true := by
    rcases h with h | h | h | h <;> simp [isInvalidShopId, h]
  exact ⟨by simp [productsFetchEffect, hb],
    by simp [renderProductsPage, hb]⟩

/-- Witness for C10 at the literal shop identifier "undefined". -/
theorem C10_shop_id_guard_witness :
    productsFetchEffect "undefined" 3 10 = (none, false)
    ∧ renderProductsPage "undefined" false = PageView.selectShopPrompt :=
  C10_shop_id_guard "undefined" 3 10 (Or.inr (Or.inr (Or.inl rfl)))

end WBBot
